import Mathlib

/-!
Shallow embedding of `src/code/extract-summary-files.py`.

The program reads stdin line by line, recognises marker lines with the
pattern `===== ([a-zA-Z0-9._]+) =====` (matched with `re.match` against
`line.strip()`), and writes each segment's buffered lines to the file named
by the marker's captured identifier.

The embedding models a run as the ordered list of write events
`(filename, bytes written)` that `write_to_file` performs.
-/

namespace ExtractSummary

/-- The ASCII whitespace characters stripped by Python's `str.strip()`:
space, tab, newline, carriage return, vertical tab (11), form feed (12).
(Python also strips some non-ASCII Unicode spaces; inputs here are text
lines, for which this ASCII set is the relevant one.) -/
def pyIsSpace (c : Char) : Bool :=
  c == ' ' || c == '\t' || c == '\n' || c == '\r' || c.toNat == 11 || c.toNat == 12

/-- Model of `line.strip()`: remove leading and trailing whitespace (both ends). -/
def pyStrip (s : List Char) : List Char :=
  ((s.dropWhile pyIsSpace).reverse.dropWhile pyIsSpace).reverse

/-- The character class `[a-zA-Z0-9._]` of `filename_pattern`. -/
def isIdentChar (c : Char) : Bool :=
  (97 ≤ c.toNat && c.toNat ≤ 122) || (65 ≤ c.toNat && c.toNat ≤ 90) ||
    (48 ≤ c.toNat && c.toNat ≤ 57) || c == '.' || c == '_'

/-- Model of `filename_pattern.match` applied to `s`, for `filename_pattern =
re.compile(r"===== ([a-zA-Z0-9._]+) =====")`: anchored at the start of `s`,
trailing characters after the match are ignored, and on success the captured
group (the identifier) is returned.

The greedy `[a-zA-Z0-9._]+` is modelled by maximal munch (`takeWhile`).
This is exact: if the engine backtracked by shortening the captured run, the
character following the shortened run would still be in the class, hence not
the space the pattern requires next, so no shorter run can ever succeed. -/
def filename_match (s : List Char) : Option String :=
  if "===== ".data.isPrefixOf s then
    if !((s.drop 6).takeWhile isIdentChar).isEmpty &&
        " =====".data.isPrefixOf
          ((s.drop 6).drop ((s.drop 6).takeWhile isIdentChar).length) then
      some (String.mk ((s.drop 6).takeWhile isIdentChar))
    else
      none
  else
    none

/-- Line 16 of the source: `filename_pattern.match(line.strip())`, returning
the captured filename when the line is recognised as a marker. -/
def markerOf (line : String) : Option String :=
  filename_match (pyStrip line.data)

/-- Model of `write_to_file(filename, lines)`: open `filename` for writing
(truncating any previous content) and write each buffered line verbatim.
Modelled as the write event `(filename, concatenation of the lines)`. -/
def write_to_file (filename : String) (lines : List String) : String × String :=
  (filename, String.join lines)

/-- The `for line in sys.stdin` loop of `main` (lines 15-24) together with
the final flush (lines 26-27), as a recursion over the remaining input
lines, carrying `current_file` and `current_lines`.

Faithful detail: on a marker line, `current_lines = []` is executed only
inside `if current_file is not None:`, so when the first marker arrives the
buffer of earlier lines is NOT cleared — it is kept and ends up in the
first segment's write. -/
def loop (cf : Option String) (cur : List String) :
    List String → List (String × String)
  | [] =>
    match cf with
    | none => []
    | some f => [write_to_file f cur]
  | line :: rest =>
    match markerOf line, cf with
    | some name, some f => write_to_file f cur :: loop (some name) [] rest
    | some name, none => loop (some name) cur rest
    | none, _ => loop cf (cur ++ [line]) rest

/-- Model of `main()`: run the loop on the input lines from the initial state
`current_file = None`, `current_lines = []`; the result is the ordered list
of write events performed. -/
def main (ls : List String) : List (String × String) :=
  loop none [] ls

/-- Helper for `splitLines`: split a character stream into lines after each
newline, keeping the terminator, with a final unterminated chunk kept as a
line of its own (Python text-stream line iteration). -/
def splitLinesAux : List Char → List Char → List (List Char)
  | acc, [] => if acc.isEmpty then [] else [acc.reverse]
  | acc, c :: cs =>
    if c == '\n' then (acc.reverse ++ ['\n']) :: splitLinesAux [] cs
    else splitLinesAux (c :: acc) cs

/-- Line iteration of `sys.stdin` over a whole input text: the lines, each
retaining its trailing newline (the last may lack one). -/
def splitLines (s : String) : List String :=
  (splitLinesAux [] s.data).map String.mk

/-- Run the program on a raw input text: split it into lines and run
`main`. -/
def split (s : String) : List (String × String) :=
  main (splitLines s)

/-- Apply a list of write events to a store, in order; each write fully
overwrites the previous content at its name (mode `'w'` of `open`). -/
def applyWrites (fs : String → Option String) (ws : List (String × String)) :
    String → Option String :=
  ws.foldl (fun g w => fun m => if m = w.1 then some w.2 else g m) fs

/-- The files produced by running the program on input text `s`, starting
from an empty store. -/
def finalFS (s : String) : String → Option String :=
  applyWrites (fun _ => none) (split s)

/-! ### Step equations of the loop -/

theorem loop_nil_none (cur : List String) : loop none cur [] = [] := rfl

theorem loop_nil_some (f : String) (cur : List String) :
    loop (some f) cur [] = [write_to_file f cur] := rfl

theorem loop_cons_nonmarker (cf : Option String) (cur : List String)
    (line : String) (rest : List String) (h : markerOf line = none) :
    loop cf cur (line :: rest) = loop cf (cur ++ [line]) rest := by
  cases cf <;> simp only [loop, h]

theorem loop_cons_marker_some (f name : String) (cur : List String)
    (line : String) (rest : List String) (h : markerOf line = some name) :
    loop (some f) cur (line :: rest) =
      write_to_file f cur :: loop (some name) [] rest := by
  simp only [loop, h]

theorem loop_cons_marker_none (name : String) (cur : List String)
    (line : String) (rest : List String) (h : markerOf line = some name) :
    loop none cur (line :: rest) = loop (some name) cur rest := by
  simp only [loop, h]

/-! ### Spec-side descriptions used to state the claims -/

/-- The shape a character string must have for the marker pattern to match
at its start: literal `=====`, one space, a non-empty identifier over
`[A-Za-z0-9._]`, one space, literal `=====`, then arbitrary trailing
characters. -/
def MarkerShape (s : List Char) : Prop :=
  ∃ ident rest, s = "===== ".data ++ (ident ++ (" =====".data ++ rest)) ∧
    ident ≠ [] ∧ ∀ c ∈ ident, isIdentChar c = true

/-! ### Lemmas about the marker matcher -/

theorem filename_match_concat (ident rest : List Char)
    (hne : ident ≠ []) (hall : ∀ c ∈ ident, isIdentChar c = true) :
    filename_match ("===== ".data ++ (ident ++ (" =====".data ++ rest))) =
      some (String.mk ident) := by
  have hpre : "===== ".data.isPrefixOf
      ("===== ".data ++ (ident ++ (" =====".data ++ rest))) = true :=
    List.isPrefixOf_iff_prefix.mpr (List.prefix_append _ _)
  have hdrop : ("===== ".data ++ (ident ++ (" =====".data ++ rest))).drop 6 =
      ident ++ (" =====".data ++ rest) :=
    List.drop_left' (by decide)
  have htail : (" =====".data ++ rest).takeWhile isIdentChar = [] := by
    have hc : (" =====" : String).data = ' ' :: "=====".data := by decide
    rw [hc, List.cons_append, List.takeWhile_cons]
    simp [show isIdentChar ' ' = false from by decide]
  have htake : (ident ++ (" =====".data ++ rest)).takeWhile isIdentChar = ident := by
    rw [List.takeWhile_append, List.takeWhile_eq_self_iff.mpr hall, htail]
    simp
  have hne' : ident.isEmpty = false := by
    cases ident with
    | nil => exact absurd rfl hne
    | cons a l => rfl
  have hdrop2 : (ident ++ (" =====".data ++ rest)).drop ident.length =
      " =====".data ++ rest :=
    List.drop_left' rfl
  have hsp : " =====".data.isPrefixOf (" =====".data ++ rest) = true :=
    List.isPrefixOf_iff_prefix.mpr (List.prefix_append _ _)
  simp only [filename_match, hpre, if_true, hdrop, htake, hne', hdrop2, hsp,
    Bool.not_false, Bool.and_self, if_pos]

theorem filename_match_shape {s : List Char}
    (h : (filename_match s).isSome = true) : MarkerShape s := by
  rw [filename_match] at h
  split at h
  case isFalse => simp at h
  case isTrue h1 =>
    split at h
    case isFalse => simp at h
    case isTrue h2 =>
      obtain ⟨t, ht⟩ := List.isPrefixOf_iff_prefix.mp h1
      have hdropt : s.drop 6 = t := by
        conv_lhs => rw [← ht]
        exact List.drop_left' (by decide)
      obtain ⟨hne, hsp⟩ := Bool.and_eq_true_iff.mp h2
      set A := (s.drop 6).takeWhile isIdentChar with hA
      obtain ⟨u, hu⟩ := List.takeWhile_prefix isIdentChar (l := s.drop 6)
      rw [← hA] at hu
      have hdu : (s.drop 6).drop A.length = u := by
        rw [← hu]
        exact List.drop_left A u
      rw [hdu] at hsp
      obtain ⟨v, hv⟩ := List.isPrefixOf_iff_prefix.mp hsp
      refine ⟨A, v, ?_, ?_, ?_⟩
      · have h3 : A ++ (" =====".data ++ v) = t := by
          rw [hv, hu, hdropt]
        rw [h3]
        exact ht.symm
      · intro hnil
        rw [hnil] at hne
        simp at hne
      · intro c hc
        exact List.mem_takeWhile_imp hc

/-- Claim C3: a line is recognised as a marker exactly when, after
trimming, it starts with `===== `, then one or more characters from
`[A-Za-z0-9._]`, then ` =====`; trailing content after the match is
ignored (exact-prefix, not full-line, matching), and a line whose
identifier contains a space, such as `===== my file.txt =====`, is never
recognised as a marker. -/
theorem claim_C3 :
    (∀ s : List Char, (filename_match s).isSome = true ↔ MarkerShape s) ∧
    (∀ line : String, markerOf line = filename_match (pyStrip line.data)) ∧
    markerOf "===== my file.txt =====" = none ∧
    markerOf "===== a.txt ===== trailing" = some "a.txt" := by
  refine ⟨fun s => ⟨fun h => filename_match_shape h, ?_⟩, fun _ => rfl, by decide, by decide⟩
  rintro ⟨ident, rest, hs, hne, hall⟩
  rw [hs, filename_match_concat ident rest hne hall]
  rfl

/-- Claim C4, counterexample: `line.strip()` removes leading whitespace as
well, so the line `"  ===== a.txt =====\n"` (leading whitespace before
`=====`) IS recognised as a marker, and in a run it opens the file
`a.txt` instead of being appended to the current segment's buffer. -/
theorem claim_C4_counterexample :
    markerOf "  ===== a.txt =====\n" = some "a.txt" ∧
    split "===== f =====\nA\n  ===== a.txt =====\nB\n" =
      [("f", "A\n"), ("a.txt", "B\n")] := by decide

/-- Claim C4, amended: both leading and trailing whitespace are stripped
for the purpose of marker matching (stripping a leading all-whitespace
block never changes the match), and a line whose stripped form fails the
match is appended, as the original unmodified line, to the current
buffer. -/
theorem claim_C4 :
    (∀ (cf : Option String) (cur : List String) (l : String) (rest : List String),
      markerOf l = none → loop cf cur (l :: rest) = loop cf (cur ++ [l]) rest) ∧
    (∀ (w s : List Char), (∀ c ∈ w, pyIsSpace c = true) →
      pyStrip (w ++ s) = pyStrip s) := by
  constructor
  · intro cf cur l rest hm
    exact loop_cons_nonmarker cf cur l rest hm
  · intro w s hw
    have hd : (w ++ s).dropWhile pyIsSpace = s.dropWhile pyIsSpace := by
      rw [List.dropWhile_append]
      have : w.dropWhile pyIsSpace = [] := List.dropWhile_eq_nil_iff.mpr hw
      simp [this]
    simp only [pyStrip, hd]

/-- Claim C4, witness: the amended statement applied at concrete inputs. -/
theorem claim_C4_witness :
    loop none [] ("x" :: []) = loop none ["x"] [] ∧
    pyStrip ([' '] ++ "a".data) = pyStrip "a".data :=
  ⟨claim_C4.1 none [] "x" [] (by decide), claim_C4.2 [' '] "a".data (by decide)⟩

/-- Claim C1 (code behaviour at the failing input): lines read before the
first marker are NOT discarded — `current_lines = []` is executed only
under `if current_file is not None:`, so on the first marker the buffer
keeps the leading lines and they are written into the first segment's
file: the input `"hello\n===== a.txt =====\nworld\n"` produces `a.txt`
containing `"hello\nworld\n"`, not `"world\n"`. -/
theorem claim_C1 :
    split "hello\n===== a.txt =====\nworld\n" =
      [("a.txt", "hello\nworld\n")] := by decide

/-- Claim C8: a marker immediately followed by another marker yields an
empty write for the first identifier: on
`"===== a.txt =====\n===== b.txt =====\nX\n"` the program writes `a.txt`
empty and `b.txt` containing exactly `"X\n"`. -/
theorem claim_C8 :
    split "===== a.txt =====\n===== b.txt =====\nX\n" =
      [("a.txt", ""), ("b.txt", "X\n")] ∧
    finalFS "===== a.txt =====\n===== b.txt =====\nX\n" "a.txt" = some "" ∧
    finalFS "===== a.txt =====\n===== b.txt =====\nX\n" "b.txt" = some "X\n" := by
  refine ⟨by decide, by decide, by decide⟩

/-- Claim C10: the splitter is deterministic — the write sequence is a
pure function of the input line sequence, so two runs on identical inputs
produce identical sequences of write operations. -/
theorem claim_C10 (ls₁ ls₂ : List String) (h : ls₁ = ls₂) :
    main ls₁ = main ls₂ := by
  rw [h]

/-- Claim C10, witness: determinism applied at a concrete input. -/
theorem claim_C10_witness :
    main (splitLines "===== a.txt =====\nx\n") =
      main (splitLines "===== a.txt =====\nx\n") :=
  claim_C10 _ _ rfl

/-! ### Round-trip: building an input from named segments -/

/-- An identifier the marker pattern can capture: non-empty, only
characters from `[A-Za-z0-9._]`. -/
def validIdent (n : String) : Bool :=
  !n.data.isEmpty && n.data.all isIdentChar

/-- The marker line for identifier `n`, as written when concatenating
segments into one stream. -/
def markerLine (n : String) : String :=
  "===== " ++ n ++ " =====\n"

/-- Concatenate named segments into one input line sequence: each
segment contributes its marker line followed by its lines. -/
def buildInput (segs : List (String × List String)) : List String :=
  segs.flatMap (fun s => markerLine s.1 :: s.2)

theorem identChar_not_space {c : Char} (h : isIdentChar c = true) :
    pyIsSpace c = false := by
  have h46 : 46 ≤ c.toNat := by
    simp only [isIdentChar, Bool.or_eq_true, Bool.and_eq_true, decide_eq_true_eq,
      beq_iff_eq] at h
    rcases h with ((((h | h) | h) | h) | h)
    · omega
    · omega
    · omega
    · rw [h]; decide
    · rw [h]; decide
  by_contra h2
  rw [Bool.not_eq_false] at h2
  have h32 : c.toNat ≤ 32 := by
    simp only [pyIsSpace, Bool.or_eq_true, beq_iff_eq] at h2
    rcases h2 with ((((h2 | h2) | h2) | h2) | h2) | h2
    · rw [h2]; decide
    · rw [h2]; decide
    · rw [h2]; decide
    · rw [h2]; decide
    · omega
    · omega
  omega

theorem pyStrip_markerLine (n : String) :
    pyStrip (markerLine n).data = "===== ".data ++ (n.data ++ " =====".data) := by
  have hdata : (markerLine n).data =
      "===== ".data ++ (n.data ++ " =====\n".data) := by
    simp [markerLine, String.data_append, List.append_assoc]
  rw [hdata]
  unfold pyStrip
  have hL : (("===== ".data ++ (n.data ++ " =====\n".data)).dropWhile pyIsSpace) =
      "===== ".data ++ (n.data ++ " =====\n".data) := by
    rw [List.dropWhile_append]
    have h1 : ("===== ".data.dropWhile pyIsSpace) = "===== ".data := by decide
    rw [h1]
    simp
  rw [hL, List.reverse_append, List.reverse_append, List.append_assoc]
  rw [List.dropWhile_append]
  have h2 : (" =====\n".data.reverse.dropWhile pyIsSpace) = " =====".data.reverse := by
    decide
  rw [h2]
  have h3 : (" =====".data.reverse.isEmpty) = false := by decide
  simp only [h3, Bool.false_eq_true, if_false]
  simp [List.reverse_append, List.reverse_reverse, List.append_assoc]

theorem markerOf_markerLine (n : String) (hne : n.data ≠ [])
    (hall : ∀ c ∈ n.data, isIdentChar c = true) :
    markerOf (markerLine n) = some n := by
  unfold markerOf
  rw [pyStrip_markerLine n]
  have h := filename_match_concat n.data [] hne hall
  rw [List.append_nil] at h
  rw [h]

theorem validIdent_spec {n : String} (h : validIdent n = true) :
    n.data ≠ [] ∧ ∀ c ∈ n.data, isIdentChar c = true := by
  obtain ⟨h1, h2⟩ := Bool.and_eq_true_iff.mp h
  constructor
  · intro hnil
    rw [hnil] at h1
    simp at h1
  · intro c hc
    exact List.all_eq_true.mp h2 c hc

/-- From an open segment, a run of non-marker lines is wholly appended to
the buffer. -/
theorem loop_nonmarkers (f : String) (ls : List String)
    (h : ∀ l ∈ ls, markerOf l = none) :
    ∀ (cur rest : List String),
      loop (some f) cur (ls ++ rest) = loop (some f) (cur ++ ls) rest := by
  induction ls with
  | nil => intro cur rest; simp
  | cons l t ih =>
    intro cur rest
    rw [List.cons_append, loop_cons_nonmarker _ _ _ _ (h l (by simp))]
    rw [ih (fun x hx => h x (by simp [hx])) (cur ++ [l]) rest]
    simp [List.append_assoc]

theorem loop_buildInput : ∀ (segs : List (String × List String)),
    (∀ s ∈ segs, validIdent s.1 = true) →
    (∀ s ∈ segs, ∀ l ∈ s.2, markerOf l = none) →
    ∀ (f : String) (cur : List String),
      loop (some f) cur (buildInput segs) =
        (f, String.join cur) :: segs.map (fun s => (s.1, String.join s.2)) := by
  intro segs
  induction segs with
  | nil =>
    intro _ _ f cur
    simp only [buildInput, List.flatMap_nil, List.map_nil]
    rfl
  | cons s rest ih =>
    intro hn hc f cur
    obtain ⟨hne, hall⟩ := validIdent_spec (hn s (by simp))
    have hb : buildInput (s :: rest) = markerLine s.1 :: (s.2 ++ buildInput rest) := by
      simp [buildInput]
    rw [hb, loop_cons_marker_some f s.1 cur _ _ (markerOf_markerLine s.1 hne hall)]
    rw [loop_nonmarkers s.1 s.2 (hc s (by simp)) [] (buildInput rest)]
    rw [ih (fun x hx => hn x (by simp [hx])) (fun x hx => hc x (by simp [hx])) s.1 ([] ++ s.2)]
    simp [write_to_file]

/-- Claim C2, counterexample: the round-trip fails for a segment whose
content line is itself a marker line — the claim as stated quantifies over
segments with arbitrary lines. For the single segment `a.txt` containing
the one line `"===== b.txt =====\n"`, the splitter does not reproduce that
content (it opens file `b.txt` instead, and `a.txt` is written empty). -/
theorem claim_C2_counterexample :
    main (buildInput [("a.txt", ["===== b.txt =====\n"])]) ≠
      [("a.txt", String.join ["===== b.txt =====\n"])] := by decide

/-- Claim C2, amended: for any finite sequence of named segments whose
identifiers are non-empty strings over `[A-Za-z0-9._]` and whose lines are
not themselves recognised as markers, concatenating each segment's marker
line with its lines and running the splitter yields exactly one write per
segment, in the original order, each writing precisely that segment's
lines concatenated in order with no transformation (hence with distinct
identifiers each file reproduces exactly its segment's content). -/
theorem claim_C2 (segs : List (String × List String))
    (hn : ∀ s ∈ segs, validIdent s.1 = true)
    (hc : ∀ s ∈ segs, ∀ l ∈ s.2, markerOf l = none) :
    main (buildInput segs) = segs.map (fun s => (s.1, String.join s.2)) := by
  cases segs with
  | nil => rfl
  | cons s rest =>
    obtain ⟨hne, hall⟩ := validIdent_spec (hn s (by simp))
    have hb : buildInput (s :: rest) = markerLine s.1 :: (s.2 ++ buildInput rest) := by
      simp [buildInput]
    unfold main
    rw [hb, loop_cons_marker_none s.1 [] _ _ (markerOf_markerLine s.1 hne hall)]
    rw [loop_nonmarkers s.1 s.2 (hc s (by simp)) [] (buildInput rest)]
    rw [loop_buildInput rest (fun x hx => hn x (by simp [hx]))
      (fun x hx => hc x (by simp [hx])) s.1 ([] ++ s.2)]
    simp

/-- Claim C2, witness: the amended round-trip applied to two concrete
segments. -/
theorem claim_C2_witness :
    main (buildInput [("a.txt", ["hello\n"]), ("b.txt", ["x\n", "y\n"])]) =
      [("a.txt", ["hello\n"]), ("b.txt", ["x\n", "y\n"])].map
        (fun s => (s.1, String.join s.2)) :=
  claim_C2 _ (by decide) (by decide)

/-! ### Last write wins -/

/-- The content of the last write to name `n` in a write sequence, if
any — later writes are consulted first. -/
def lastWrite : List (String × String) → String → Option String
  | [], _ => none
  | w :: ws, n =>
    match lastWrite ws n with
    | some c => some c
    | none => if w.1 = n then some w.2 else none

theorem applyWrites_lastWrite : ∀ (ws : List (String × String))
    (fs : String → Option String) (n : String),
    applyWrites fs ws n = (lastWrite ws n).or (fs n) := by
  intro ws
  induction ws with
  | nil => intro fs n; rfl
  | cons w ws ih =>
    intro fs n
    have hstep : applyWrites fs (w :: ws) n =
        applyWrites (fun m => if m = w.1 then some w.2 else fs m) ws n := rfl
    rw [hstep, ih]
    cases hlw : lastWrite ws n with
    | some c => simp [lastWrite, hlw, Option.or]
    | none =>
      simp only [lastWrite, hlw, Option.or]
      by_cases he : w.1 = n
      · rw [if_pos he.symm, if_pos he]
      · rw [if_neg (fun hx => he hx.symm), if_neg he]

/-- Claim C6: each flush fully overwrites earlier content at the same
name (pure overwrite, no append or merge): after applying a write
sequence, a name holds the content of the last write to it, and in
particular the duplicate-identifier input leaves `a.txt` holding `"2\n"`
only. -/
theorem claim_C6 :
    (∀ (fs : String → Option String) (ws : List (String × String)) (n : String),
      applyWrites fs ws n = (lastWrite ws n).or (fs n)) ∧
    split "===== a.txt =====\n1\n===== a.txt =====\n2\n" =
      [("a.txt", "1\n"), ("a.txt", "2\n")] ∧
    finalFS "===== a.txt =====\n1\n===== a.txt =====\n2\n" "a.txt" = some "2\n" :=
  ⟨fun fs ws n => applyWrites_lastWrite ws fs n, by decide, by decide⟩

/-- Claim C7: an input ending without a trailing marker still flushes the
open segment in full at end of stream, with the same flush logic as a
mid-stream flush: from an open segment, a marker-free remainder produces
exactly one write holding every buffered line, concatenated as buffered
with nothing added or removed; the write overwrites any existing content
at that name. -/
theorem claim_C7 :
    (∀ (f : String) (cur ls : List String), (∀ l ∈ ls, markerOf l = none) →
      loop (some f) cur ls = [(f, String.join (cur ++ ls))]) ∧
    (∀ (fs : String → Option String) (f : String) (cur : List String),
      applyWrites fs [write_to_file f cur] f = some (String.join cur)) ∧
    split "===== a.txt =====\nworld" = [("a.txt", "world")] := by
  refine ⟨?_, ?_, by decide⟩
  · intro f cur ls h
    have hx := loop_nonmarkers f ls h cur []
    rw [List.append_nil] at hx
    rw [hx, loop_nil_some]
    rfl
  · intro fs f cur
    simp [applyWrites, write_to_file]

/-- Claim C7, witness: the end-of-stream flush applied at a concrete open
segment and buffer. -/
theorem claim_C7_witness :
    loop (some "a.txt") ["x\n"] ["y\n"] =
      [("a.txt", String.join (["x\n"] ++ ["y\n"]))] :=
  claim_C7.1 "a.txt" ["x\n"] ["y\n"] (by decide)

/-! ### Per-marker segments (spec-side description for the flush invariant) -/

/-- A line that is not recognised as a marker. -/
def nonMarker (l : String) : Bool :=
  (markerOf l).isNone

theorem dropWhile_length_le {α : Type _} (p : α → Bool) (l : List α) :
    (l.dropWhile p).length ≤ l.length := by
  induction l with
  | nil => simp
  | cons x xs ih =>
    rw [List.dropWhile_cons]
    split
    · exact Nat.le_succ_of_le ih
    · exact Nat.le_refl _

/-- The markers of the input paired with their constituent lines: for each
marker, the run of non-marker lines between it and the next marker (or the
end of input). -/
def segPairs : List String → List (String × List String)
  | [] => []
  | l :: ls =>
    match markerOf l with
    | some n => (n, ls.takeWhile nonMarker) :: segPairs (ls.dropWhile nonMarker)
    | none => segPairs ls
  termination_by ls => ls.length
  decreasing_by
    · simp only [List.length_cons]
      exact Nat.lt_succ_of_le (dropWhile_length_le _ _)
    · simp only [List.length_cons]
      exact Nat.lt_succ_self _

theorem segPairs_nil : segPairs [] = [] := by
  rw [segPairs]

theorem segPairs_cons_marker {l n : String} (ls : List String)
    (hm : markerOf l = some n) :
    segPairs (l :: ls) =
      (n, ls.takeWhile nonMarker) :: segPairs (ls.dropWhile nonMarker) := by
  rw [segPairs, hm]

theorem segPairs_cons_nonmarker {l : String} (ls : List String)
    (hm : markerOf l = none) :
    segPairs (l :: ls) = segPairs ls := by
  rw [segPairs, hm]

theorem filterMap_dropWhile_nonMarker (ls : List String) :
    (ls.dropWhile nonMarker).filterMap markerOf = ls.filterMap markerOf := by
  conv_rhs => rw [← List.takeWhile_append_dropWhile nonMarker ls]
  rw [List.filterMap_append]
  have h : (ls.takeWhile nonMarker).filterMap markerOf = [] := by
    rw [List.filterMap_eq_nil_iff]
    intro a ha
    have h2 : nonMarker a = true := List.mem_takeWhile_imp ha
    exact Option.isNone_iff_eq_none.mp h2
  rw [h, List.nil_append]

theorem segPairs_fst : ∀ ls : List String,
    (segPairs ls).map Prod.fst = ls.filterMap markerOf := by
  intro ls
  induction ls using segPairs.induct with
  | case1 => rw [segPairs_nil]; rfl
  | case2 l ls n hm ih =>
    rw [segPairs_cons_marker ls hm, List.map_cons, ih,
      filterMap_dropWhile_nonMarker]
    simp [List.filterMap_cons, hm]
  | case3 l ls hm ih =>
    rw [segPairs_cons_nonmarker ls hm, ih]
    simp [List.filterMap_cons, hm]

/-- Full characterisation of the loop from an open-segment state. -/
theorem loop_some_eq : ∀ (ls : List String) (f : String) (cur : List String),
    loop (some f) cur ls =
      (f, String.join (cur ++ ls.takeWhile nonMarker)) ::
        (segPairs (ls.dropWhile nonMarker)).map (fun p => (p.1, String.join p.2)) := by
  intro ls
  induction ls with
  | nil =>
    intro f cur
    rw [loop_nil_some]
    simp [segPairs_nil, write_to_file]
  | cons l ls ih =>
    intro f cur
    cases hm : markerOf l with
    | some n =>
      have hnm : nonMarker l = false := by simp [nonMarker, hm]
      rw [loop_cons_marker_some f n cur l ls hm, ih n [],
        List.takeWhile_cons, List.dropWhile_cons, hnm]
      simp only [Bool.false_eq_true, if_false]
      rw [segPairs_cons_marker ls hm]
      simp [write_to_file]
    | none =>
      have hnm : nonMarker l = true := by simp [nonMarker, hm]
      rw [loop_cons_nonmarker _ _ _ _ hm, ih f (cur ++ [l]),
        List.takeWhile_cons, List.dropWhile_cons, hnm]
      simp [List.append_assoc]

theorem loop_none_fst : ∀ (ls cur : List String),
    (loop none cur ls).map Prod.fst = ls.filterMap markerOf := by
  intro ls
  induction ls with
  | nil => intro cur; rfl
  | cons l ls ih =>
    intro cur
    cases hm : markerOf l with
    | some n =>
      rw [loop_cons_marker_none n cur l ls hm, loop_some_eq ls n cur,
        List.map_cons, List.map_map]
      have hcomp : (Prod.fst ∘ fun p : String × List String =>
          (p.1, String.join p.2)) = Prod.fst := rfl
      rw [hcomp, segPairs_fst, filterMap_dropWhile_nonMarker]
      simp [List.filterMap_cons, hm]
    | none =>
      rw [loop_cons_nonmarker _ _ _ _ hm, ih (cur ++ [l])]
      simp [List.filterMap_cons, hm]

/-- Full characterisation of the loop from the initial (no open segment)
state: no marker means no writes; otherwise one write per marker, the
first write containing the buffered leading lines as well. -/
theorem loop_none_eq : ∀ (ls cur : List String),
    loop none cur ls =
      match segPairs ls with
      | [] => []
      | (n, c) :: rest =>
        (n, String.join ((cur ++ ls.takeWhile nonMarker) ++ c)) ::
          rest.map (fun p => (p.1, String.join p.2)) := by
  intro ls
  induction ls with
  | nil =>
    intro cur
    rw [segPairs_nil]
    rfl
  | cons l ls ih =>
    intro cur
    cases hm : markerOf l with
    | some n =>
      have hnm : nonMarker l = false := by simp [nonMarker, hm]
      rw [loop_cons_marker_none n cur l ls hm, loop_some_eq ls n cur,
        segPairs_cons_marker ls hm, List.takeWhile_cons, hnm]
      simp
    | none =>
      have hnm : nonMarker l = true := by simp [nonMarker, hm]
      rw [loop_cons_nonmarker _ _ _ _ hm, ih (cur ++ [l]),
        segPairs_cons_nonmarker ls hm, List.takeWhile_cons, hnm]
      cases hsp : segPairs ls with
      | nil => rfl
      | cons p rest =>
        obtain ⟨pn, pc⟩ := p
        simp [List.append_assoc]

/-- Claim C5: every marker encountered produces exactly one write
operation for the segment it opens — the write sequence is named, in
order, by exactly the recognised markers (none flushed twice, none left
unflushed) — and each write happens only once all of its segment's
constituent lines are in: the write's content ends with the concatenation
of all lines between its marker and the next (the first write may carry
buffered leading lines in front). -/
theorem claim_C5 : ∀ ls : List String,
    ((main ls).map Prod.fst = ls.filterMap markerOf) ∧
    List.Forall₂ (fun w p => w.1 = p.1 ∧ ∃ pre, w.2 = String.join (pre ++ p.2))
      (main ls) (segPairs ls) := by
  intro ls
  constructor
  · exact loop_none_fst ls []
  · show List.Forall₂ _ (loop none [] ls) _
    rw [loop_none_eq ls []]
    cases hsp : segPairs ls with
    | nil => exact List.Forall₂.nil
    | cons p rest =>
      obtain ⟨pn, pc⟩ := p
      refine List.forall₂_cons.mpr ⟨⟨rfl, ⟨[] ++ ls.takeWhile nonMarker, rfl⟩⟩, ?_⟩
      rw [List.forall₂_map_left_iff, List.forall₂_same]
      intro x _
      exact ⟨rfl, ⟨[], rfl⟩⟩

/-! ### Failure model: a flush may fail when its target cannot be opened -/

/-- The loop of `main` when `open(filename, 'w')` may fail: `bad` is the
set of target names that cannot be opened for writing. A failing flush
raises immediately; the error value records the writes already performed
(which remain on disk) and the failing filename. No other step can fail. -/
def loopE (bad : String → Bool) (cf : Option String) (cur : List String) :
    List String → Except (List (String × String) × String) (List (String × String))
  | [] =>
    match cf with
    | none => .ok []
    | some f => if bad f then .error ([], f) else .ok [write_to_file f cur]
  | line :: rest =>
    match markerOf line, cf with
    | some name, some f =>
      if bad f then .error ([], f)
      else
        match loopE bad (some name) [] rest with
        | .ok ws => .ok (write_to_file f cur :: ws)
        | .error (pre, g) => .error (write_to_file f cur :: pre, g)
    | some name, none => loopE bad (some name) cur rest
    | none, _ => loopE bad cf (cur ++ [line]) rest

/-- Model of `main()` in the failure model. -/
def mainE (bad : String → Bool) (ls : List String) :
    Except (List (String × String) × String) (List (String × String)) :=
  loopE bad none [] ls

/-- Cut a write sequence at its first write whose target is bad:
either all writes go through, or the error carries the successful prefix
and the first failing name. -/
def firstBad (bad : String → Bool) :
    List (String × String) →
      Except (List (String × String) × String) (List (String × String))
  | [] => .ok []
  | w :: ws =>
    if bad w.1 then .error ([], w.1)
    else
      match firstBad bad ws with
      | .ok rest => .ok (w :: rest)
      | .error (pre, g) => .error (w :: pre, g)

theorem loopE_eq_firstBad (bad : String → Bool) :
    ∀ (ls : List String) (cf : Option String) (cur : List String),
      loopE bad cf cur ls = firstBad bad (loop cf cur ls) := by
  intro ls
  induction ls with
  | nil =>
    intro cf cur
    cases cf with
    | none => rfl
    | some f =>
      rw [loop_nil_some]
      by_cases hb : bad f
      · simp only [loopE, firstBad, write_to_file, hb, if_true]
      · simp only [loopE, firstBad, write_to_file, hb, Bool.false_eq_true, if_false]
  | cons l rest ih =>
    intro cf cur
    cases hm : markerOf l with
    | none =>
      rw [loop_cons_nonmarker _ _ _ _ hm]
      have hstep : loopE bad cf cur (l :: rest) = loopE bad cf (cur ++ [l]) rest := by
        cases cf <;> simp only [loopE, hm]
      rw [hstep, ih]
    | some n =>
      cases cf with
      | none =>
        rw [loop_cons_marker_none n cur l rest hm]
        have hstep : loopE bad none cur (l :: rest) = loopE bad (some n) cur rest := by
          simp only [loopE, hm]
        rw [hstep, ih]
      | some f =>
        rw [loop_cons_marker_some f n cur l rest hm]
        have hstep : loopE bad (some f) cur (l :: rest) =
            if bad f then .error ([], f)
            else
              match loopE bad (some n) [] rest with
              | .ok ws => .ok (write_to_file f cur :: ws)
              | .error (pre, g) => .error (write_to_file f cur :: pre, g) := by
          simp only [loopE, hm]
        have hfb : firstBad bad (write_to_file f cur :: loop (some n) [] rest) =
            if bad f then .error ([], f)
            else
              match firstBad bad (loop (some n) [] rest) with
              | .ok ws => .ok (write_to_file f cur :: ws)
              | .error (pre, g) => .error (write_to_file f cur :: pre, g) := by
          simp only [firstBad, write_to_file]
        rw [hstep, hfb, ih]

theorem firstBad_ok (bad : String → Bool) :
    ∀ ws : List (String × String), (∀ w ∈ ws, bad w.1 = false) →
      firstBad bad ws = .ok ws := by
  intro ws
  induction ws with
  | nil => intro _; rfl
  | cons w ws ih =>
    intro h
    have hw : bad w.1 = false := h w (by simp)
    simp only [firstBad, hw, Bool.false_eq_true, if_false]
    rw [ih (fun x hx => h x (by simp [hx]))]

theorem firstBad_error_iff (bad : String → Bool) :
    ∀ ws : List (String × String),
      (∃ e, firstBad bad ws = .error e) ↔ ∃ w ∈ ws, bad w.1 = true := by
  intro ws
  induction ws with
  | nil =>
    constructor
    · rintro ⟨e, he⟩
      exact absurd he (by simp [firstBad])
    · rintro ⟨w, hw, _⟩
      exact absurd hw (List.not_mem_nil w)
  | cons w ws ih =>
    by_cases hw : bad w.1
    · constructor
      · intro _
        exact ⟨w, by simp, hw⟩
      · intro _
        exact ⟨([], w.1), by simp only [firstBad, hw, if_true]⟩
    · simp only [firstBad, hw, Bool.false_eq_true, if_false]
      constructor
      · rintro ⟨e, he⟩
        cases hf : firstBad bad ws with
        | ok r => rw [hf] at he; exact absurd he (by simp)
        | error e2 =>
          obtain ⟨x, hx, hbx⟩ := ih.mp ⟨e2, hf⟩
          exact ⟨x, by simp [hx], hbx⟩
      · rintro ⟨x, hx, hbx⟩
        rcases List.mem_cons.mp hx with hx1 | hx2
        · rw [hx1] at hbx
          exact absurd hbx (by simp [hw])
        · obtain ⟨e2, hf⟩ := ih.mpr ⟨x, hx2, hbx⟩
          rw [hf]
          exact ⟨(w :: e2.1, e2.2), by rfl⟩


theorem firstBad_error_spec (bad : String → Bool) :
    ∀ (ws : List (String × String)) (pre : List (String × String)) (f : String),
      firstBad bad ws = .error (pre, f) →
        bad f = true ∧ (∀ w ∈ pre, bad w.1 = false) ∧
          ∃ c rest, ws = pre ++ (f, c) :: rest := by
  intro ws
  induction ws with
  | nil =>
    intro pre f h
    exact absurd h (by simp [firstBad])
  | cons w ws ih =>
    intro pre f h
    by_cases hw : bad w.1
    · simp only [firstBad, hw, if_true, Except.error.injEq, Prod.mk.injEq] at h
      obtain ⟨h1, h2⟩ := h
      refine ⟨h2 ▸ hw, ?_, w.2, ws, ?_⟩
      · rw [← h1]
        intro x hx
        exact absurd hx (List.not_mem_nil x)
      · rw [← h1, ← h2, List.nil_append]
    · simp only [firstBad, hw, Bool.false_eq_true, if_false] at h
      cases hf : firstBad bad ws with
      | ok r =>
        rw [hf] at h
        exact absurd h (by simp)
      | error e2 =>
        obtain ⟨p, g⟩ := e2
        rw [hf] at h
        simp only [Except.error.injEq, Prod.mk.injEq] at h
        obtain ⟨h1, h2⟩ := h
        obtain ⟨hb, hpre, c, rest, hws⟩ := ih p g hf
        refine ⟨h2 ▸ hb, ?_, c, rest, ?_⟩
        · rw [← h1]
          intro x hx
          rcases List.mem_cons.mp hx with hx1 | hx2
          · rw [hx1]
            exact Bool.eq_false_iff.mpr hw
          · exact hpre x hx2
        · rw [← h1, ← h2, List.cons_append, hws]

/-- Claim C9: a run fails exactly when some flush targets a name that
cannot be opened for writing; with no failing target the run performs
precisely the writes of the failure-free semantics (malformed or absent
markers never raise — they only reduce the write list, possibly to
nothing); and on failure the error surfaces at the first failing flush,
aborting the rest of the pass while the writes already performed — exactly
the failure-free write sequence up to the failing one — remain. -/
theorem claim_C9 :
    (∀ (bad : String → Bool) (ls : List String),
      (∃ e, mainE bad ls = .error e) ↔ ∃ w ∈ main ls, bad w.1 = true) ∧
    (∀ (bad : String → Bool) (ls : List String),
      (∀ w ∈ main ls, bad w.1 = false) → mainE bad ls = .ok (main ls)) ∧
    (∀ (bad : String → Bool) (ls : List String)
      (pre : List (String × String)) (f : String),
      mainE bad ls = .error (pre, f) →
        bad f = true ∧ (∀ w ∈ pre, bad w.1 = false) ∧
          ∃ c rest, main ls = pre ++ (f, c) :: rest) := by
  have hmainE : ∀ (bad : String → Bool) (ls : List String),
      mainE bad ls = firstBad bad (main ls) := fun bad ls =>
    loopE_eq_firstBad bad ls none []
  refine ⟨?_, ?_, ?_⟩
  · intro bad ls
    rw [hmainE bad ls]
    exact firstBad_error_iff bad (main ls)
  · intro bad ls h
    rw [hmainE bad ls]
    exact firstBad_ok bad (main ls) h
  · intro bad ls pre f h
    rw [hmainE bad ls] at h
    exact firstBad_error_spec bad (main ls) pre f h

/-- Claim C9, witness: on a two-segment input where only `b.txt` cannot be
opened, the run fails at the second flush, with the write to `a.txt`
already performed. -/
theorem claim_C9_witness :
    (fun n : String => n == "b.txt") "b.txt" = true ∧
    (∀ w ∈ [("a.txt", "x\n")], (fun n : String => n == "b.txt") w.1 = false) ∧
    ∃ c rest,
      main (splitLines "===== a.txt =====\nx\n===== b.txt =====\ny\n") =
        [("a.txt", "x\n")] ++ ("b.txt", c) :: rest :=
  claim_C9.2.2 (fun n : String => n == "b.txt")
    (splitLines "===== a.txt =====\nx\n===== b.txt =====\ny\n")
    [("a.txt", "x\n")] "b.txt" (by rfl)

end ExtractSummary
